import Mathlib

set_option maxRecDepth 100000

/-!
Verification of the level-generation and reachability core of a small
tile-based puzzle game (sources: common.c, level.c).

The embedding below translates the C functions into Lean:

* tiles are unsigned 16-bit bitmasks; we model them as `Nat` (all bit
  operations used by the code are width-independent on the values the
  code produces; where width matters a `< 2 ^ 16` hypothesis appears);
* the 22 x 22 grid (`Tile Level[22*22]`, indexed `x + y * 22`) is a
  function `Fin 22 × Fin 22 → Nat`;
* the flood-fill visitor (`Flood_Func`, a C function pointer receiving a
  mutable tile pointer and a `void * data` accumulator and returning a
  stop flag) is a function `Nat → Pos → σ → Nat × σ × Bool` returning
  (new tile value, new accumulator, stop);
* the state mutated in place by `flood` (the level array, the `todo`
  marker array, the step counter) is threaded explicitly in `FloodState`;
* the xoroshiro128+ generator state is a pair of `Nat` values reduced
  mod `2 ^ 64`; `float` arithmetic in `random_float` / `random_int_range`
  is idealised as exact rational arithmetic (a modelling note accompanies
  each theorem this affects);
* `fread` / `fwrite` on the binary level file are modelled over a byte
  list, with the usual C semantics: the number of *complete* items
  transferred is returned, and the C code converts that count to `bool`.
-/

/-- A cell coordinate of the 22 x 22 level grid (`LEVEL_SIZE = 22`). -/
abbrev Pos := Fin 22 × Fin 22

/-- A level: tile bitmask at each cell.  C: `Tile Level[LEVEL_SIZE * LEVEL_SIZE]`
indexed by `x + y * LEVEL_SIZE`; here indexed by the pair `(x, y)`. -/
abbrev Grid := Pos → Nat

/-- C: `#define BIT(n) (1 << (n))`. -/
def BIT (n : Nat) : Nat := 1 <<< n

/-- Entity bit indices, from common.c. -/
def FLOOR : Nat := 1
def WALL : Nat := 2
def SPIKES : Nat := 3
def EXIT : Nat := 4
def LOCK : Nat := 5
def GOLD : Nat := 6
def KEY : Nat := 7
def ENEMY : Nat := 8
def PLAYER : Nat := 9

/-- Truthiness of `tile & BIT(n)` in C. -/
def hasBit (t n : Nat) : Bool := (t &&& BIT n) != 0

/-- The match predicate of `flood` (common.c line 131):
`(level[x + y*22] & mask) == (target & mask)`. -/
def matchFn (g : Grid) (mask target : Nat) : Pos → Bool :=
  fun p => ((g p) &&& mask) == (target &&& mask)

/-- Row-major enumeration of all cells: `for y { for x { ... } }`. -/
def RM : List Pos :=
  (List.finRange 22).flatMap (fun y => (List.finRange 22).map (fun x => (x, y)))

/-- 4-orthogonal adjacency of two cells. -/
def adjacent (p q : Pos) : Prop :=
  (p.1 = q.1 ∧ (p.2.val + 1 = q.2.val ∨ q.2.val + 1 = p.2.val)) ∨
  (p.2 = q.2 ∧ (p.1.val + 1 = q.1.val ∨ q.1.val + 1 = p.1.val))

instance (p q : Pos) : Decidable (adjacent p q) := by
  unfold adjacent; infer_instance

/-- One step of connectivity through matching tiles: both endpoints match the
mask/target test and are 4-orthogonally adjacent. -/
def floodStep (M : Pos → Bool) (a b : Pos) : Prop :=
  M a = true ∧ M b = true ∧ adjacent a b

/-- The connected matching component containing `start`: cells whose masked
bits equal the target's and that are connected to the start through
4-orthogonal steps over matching cells. -/
def inComp (g : Grid) (start : Pos) (mask target : Nat) (p : Pos) : Prop :=
  matchFn g mask target p = true ∧
    Relation.ReflTransGen (floodStep (matchFn g mask target)) start p

/-- A flood-fill visitor.  C: `typedef bool (*Flood_Func)(Tile *, int x, int y,
void *)`; it may overwrite the tile through the pointer, update the data
accumulator, and request an early stop by returning true.  Modelled as
(tile, position, data) ↦ (new tile, new data, stop). -/
abbrev Visitor (σ : Type) := Nat → Pos → σ → Nat × σ × Bool

/-- The state mutated in place by `flood` (common.c lines 111-161): the level
array, the `todo` marker array (0 unvisited, 1 = `TODO`, 2 = `DONE`), the
step counter, the caller's `data` accumulator, and whether the visitor
requested the early `return`. -/
structure FloodState (σ : Type) where
  grid : Grid
  todo : Pos → Nat
  steps : Nat
  data : σ
  stopped : Bool

/-- `if (todo[q] != DONE) todo[q] = TODO;` (common.c lines 138-149). -/
def markCell (t : Pos → Nat) (q : Pos) : Pos → Nat :=
  if t q = 2 then t else Function.update t q 1

/-- `if (x > 0 && todo[(x-1) + y*22] != DONE) todo[...] = TODO;` -/
def markLeft (t : Pos → Nat) (p : Pos) : Pos → Nat :=
  if h : 0 < p.1.val then markCell t (⟨p.1.val - 1, by omega⟩, p.2) else t

/-- `if (x < 21 && todo[(x+1) + y*22] != DONE) todo[...] = TODO;` -/
def markRight (t : Pos → Nat) (p : Pos) : Pos → Nat :=
  if h : p.1.val < 21 then markCell t (⟨p.1.val + 1, by omega⟩, p.2) else t

/-- `if (y > 0 && todo[x + (y-1)*22] != DONE) todo[...] = TODO;` -/
def markUp (t : Pos → Nat) (p : Pos) : Pos → Nat :=
  if h : 0 < p.2.val then markCell t (p.1, ⟨p.2.val - 1, by omega⟩) else t

/-- `if (y < 21 && todo[x + (y+1)*22] != DONE) todo[...] = TODO;` -/
def markDown (t : Pos → Nat) (p : Pos) : Pos → Nat :=
  if h : p.2.val < 21 then markCell t (p.1, ⟨p.2.val + 1, by omega⟩) else t

/-- Mark the four orthogonal neighbours of `p` as `TODO` unless `DONE`,
in the order of common.c lines 138-149. -/
def markNeighbors (t : Pos → Nat) (p : Pos) : Pos → Nat :=
  markDown (markUp (markRight (markLeft t p) p) p) p

/-- The body of the doubly-nested scan of `flood` for one cell (common.c lines
126-153), also threading the `cleared_todo` flag.  Once the visitor has
requested a stop the C code has already returned, so the state is frozen. -/
def floodCell {σ : Type} (mask target : Nat) (v : Visitor σ)
    (sc : FloodState σ × Bool) (p : Pos) : FloodState σ × Bool :=
  if sc.1.stopped then sc
  else if sc.1.todo p = 1 then
    if matchFn sc.1.grid mask target p then
      let out := v (sc.1.grid p) p sc.1.data
      let g2 := Function.update sc.1.grid p out.1
      if out.2.2 then
        ({ sc.1 with grid := g2, data := out.2.1, stopped := true }, false)
      else
        ({ grid := g2,
           todo := markNeighbors (Function.update sc.1.todo p 2) p,
           steps := sc.1.steps + 1,
           data := out.2.1,
           stopped := false }, false)
    else (sc.1, false)
  else sc

/-- One full row-major scan of the grid (common.c lines 124-155), returning
the final state and the `cleared_todo` flag. -/
def floodSweep {σ : Type} (mask target : Nat) (v : Visitor σ)
    (s : FloodState σ) : FloodState σ × Bool :=
  RM.foldl (floodCell mask target v) (s, true)

/-- The outer bounded loop of `flood` (common.c lines 120-158): at most
`LEVEL_SIZE * LEVEL_SIZE` full scans, breaking when a scan found no `TODO`
cell, and returning immediately once the visitor requested a stop. -/
def floodLoop {σ : Type} (mask target : Nat) (v : Visitor σ) :
    Nat → FloodState σ → FloodState σ
  | 0, s => s
  | n + 1, s =>
    if s.stopped then s
    else
      let sc := floodSweep mask target v s
      if sc.2 then sc.1 else floodLoop mask target v n sc.1

/-- `flood` (common.c lines 111-161).  The C function returns `steps_taken`
and leaves its side effects in the level array and in `*data`; the model
returns the whole final state (`.steps` is the C return value). -/
def floodInit {σ : Type} (g : Grid) (start : Pos) (d : σ) : FloodState σ :=
  { grid := g, todo := Function.update (fun _ => 0) start 1,
    steps := 0, data := d, stopped := false }

def flood {σ : Type} (g : Grid) (start : Pos) (mask target : Nat)
    (v : Visitor σ) (d : σ) : FloodState σ :=
  floodLoop mask target v (22 * 22) (floodInit g start d)

/-- A visitor that never overwrites the tile and never stops, built from a
data-accumulating action `A`. -/
def mkV {σ : Type} (A : σ → Nat → Pos → σ) : Visitor σ :=
  fun t p s => (t, A s t p, false)

/-- The recording action: conses each visited cell (newest first). -/
def recA : List Pos → Nat → Pos → List Pos := fun l _ p => p :: l

/-- The list of cells visited by `flood`, newest first, obtained by running
the recording visitor. -/
def floodVisits (g : Grid) (start : Pos) (mask target : Nat) : List Pos :=
  (flood g start mask target (mkV recA) []).data

/-- `flood_record_tiles` (common.c lines 165-169): ORs every visited tile
into the accumulator, never stops, never writes the tile. -/
def flood_record_tiles : Visitor Nat := fun t _ s => (t, s ||| t, false)

/-- `find_player` (common.c lines 171-182): first row-major cell whose tile
has the `Player` bit. -/
def find_player (g : Grid) : Option Pos :=
  RM.find? (fun p => hasBit (g p) PLAYER)

/-- `BIT(FLOOR) | BIT(WALL) | BIT(SPIKES)`, the mask of every flood in
common.c/level.c reachability checks. -/
def floodMask : Nat := BIT FLOOR ||| BIT WALL ||| BIT SPIKES

/-- `BIT(FLOOR)`, the flood target: masked bits must be exactly Floor. -/
def floodTarget : Nat := BIT FLOOR

/-- `BIT(KEY) | BIT(EXIT)`. -/
def keyExitBits : Nat := BIT KEY ||| BIT EXIT

/-- `level_is_completable` (common.c lines 184-194).  The C function returns
a bool and leaves the level array in whatever state `flood` left it; the
model returns (result, final level array). -/
def level_is_completable (g : Grid) : Bool × Grid :=
  match find_player g with
  | none => (false, g)
  | some p =>
    (((flood g p floodMask floodTarget flood_record_tiles 0).data &&&
        keyExitBits) == keyExitBits,
     (flood g p floodMask floodTarget flood_record_tiles 0).grid)

/-- One attempt of the inner retry loop of `reverse_verified_scatter_generator`
(level.c lines 148-170) at a chosen cell `p`: skip if the cell holds the
player; OR in the wall bit; if the level is no longer completable XOR the
wall bit back out, otherwise collapse the tile to pure `Wall`. -/
def rvsg_attempt (g : Grid) (p : Pos) : Grid :=
  if hasBit (g p) PLAYER then g
  else if !(level_is_completable (Function.update g p ((g p) ||| BIT WALL))).1 then
    Function.update (Function.update g p ((g p) ||| BIT WALL)) p
      ((Function.update g p ((g p) ||| BIT WALL) p) ^^^ BIT WALL)
  else
    Function.update (Function.update g p ((g p) ||| BIT WALL)) p (BIT WALL)

/-- The acceptance test of the attempt above rejected the tentative wall. -/
def rvsg_rejected (g : Grid) (p : Pos) : Prop :=
  hasBit (g p) PLAYER = false ∧
    (level_is_completable (Function.update g p ((g p) ||| BIT WALL))).1 = false

/-- `count_entities` (level.c lines 174-180): increments the count when the
tile holds any bit beyond Floor/Wall/Spikes.  C computes
`*tile & ~(BIT(FLOOR)|BIT(WALL)|BIT(SPIKES))`; the complement is truncated
here to the 16-bit tile domain (`65535 - 14 = 65521`), which agrees with the
C `int` computation on every `u16` tile value. -/
def count_entities : Visitor Int :=
  fun t _ c => (t, if (t &&& 65521) != 0 then c + 1 else c, false)

/-- One attempt of the inner retry loop of
`reverse_entity_preserving_scatter_generator` (level.c lines 197-228).
`actual` is the entity count the enclosing function computed from the level
it was handed (level.c lines 188-191); `junk` is the initial value of the
accumulator `counted_entities`, which the C code reads uninitialised.  If no
player is found the C code returns from the whole function with the
tentative wall still ORed in. -/
def repsg_attempt (junk actual : Int) (g : Grid) (p : Pos) : Grid :=
  if hasBit (g p) PLAYER then g
  else
    match find_player (Function.update g p ((g p) ||| BIT WALL)) with
    | none => Function.update g p ((g p) ||| BIT WALL)
    | some pp =>
      if !(actual == (flood (Function.update g p ((g p) ||| BIT WALL)) pp
          floodMask floodTarget count_entities junk).data) then
        Function.update (Function.update g p ((g p) ||| BIT WALL)) p
          ((Function.update g p ((g p) ||| BIT WALL) p) ^^^ BIT WALL)
      else
        Function.update (Function.update g p ((g p) ||| BIT WALL)) p (BIT WALL)

/-- The acceptance test of the entity-preserving attempt rejected the wall. -/
def repsg_rejected (junk actual : Int) (g : Grid) (p : Pos) : Prop :=
  hasBit (g p) PLAYER = false ∧
    ∃ pp, find_player (Function.update g p ((g p) ||| BIT WALL)) = some pp ∧
      actual ≠ (flood (Function.update g p ((g p) ||| BIT WALL)) pp
        floodMask floodTarget count_entities junk).data

/-- Memory index of a cell: `x + y * LEVEL_SIZE`. -/
def rmIndex (p : Pos) : Nat := p.1.val + 22 * p.2.val

/-- The raw bytes of the level array, row-major, one 16-bit tile as two
little-endian bytes (the native byte order of the binary `.lvl` format). -/
def levelBytes (g : Grid) : List Nat :=
  RM.flatMap (fun p => [(g p) % 256, (g p) / 256 % 256])

/-- `write_level` (common.c lines 202-204): `(bool)fwrite(level, 2, 484, f)`.
`cap` is the number of complete items the destination accepts before failing
(modelling short writes); `fwrite` returns the number of complete items
written and the C code converts it to `bool`.  Result: (bytes written,
returned bool). -/
def write_level (cap : Nat) (g : Grid) : List Nat × Bool :=
  ((levelBytes g).take (2 * min (22 * 22) cap), min (22 * 22) cap != 0)

/-- `load_level` (common.c lines 197-199): `(bool)fread(level, 2, 484, f)`.
`fread` copies as many complete 16-bit items as the file provides (at most
484) into the front of the row-major array, leaves the rest of the array
untouched, and returns the number of complete items read; the C code
converts that count to `bool`.  Result: (returned bool, level array). -/
def load_level (file : List Nat) (g : Grid) : Bool × Grid :=
  (min (22 * 22) (file.length / 2) != 0,
   fun p =>
     if rmIndex p < min (22 * 22) (file.length / 2) then
       file.getD (2 * rmIndex p) 0 + 256 * file.getD (2 * rmIndex p + 1) 0
     else g p)

/-- Left rotation of a 64-bit value: `(x << k) | (x >> (64 - k))`. -/
def rotl64 (x k : Nat) : Nat := ((x <<< k) % 2 ^ 64) ||| (x >>> (64 - k))

/-- `random_u64` (common.c lines 71-81), the xoroshiro128+ step, on a state
pair reduced mod `2 ^ 64`.  Returns (result, new state). -/
def random_u64 (s : Nat × Nat) : Nat × (Nat × Nat) :=
  ((s.1 + s.2) % 2 ^ 64,
   (rotl64 s.1 55 ^^^ (s.2 ^^^ s.1) ^^^ (((s.2 ^^^ s.1) <<< 14) % 2 ^ 64),
    rotl64 (s.2 ^^^ s.1) 36))

/-- `random_float` (common.c lines 91-93): `(float)random_u64() / (float)UINT64_MAX`.
The float arithmetic is idealised as exact rational arithmetic
`u / (2 ^ 64 - 1)`; real float rounding can only move more draws to the
extremes (in particular `u = 2 ^ 64 - 1` yields exactly `1.0f` in C as well,
since both operands round to `2 ^ 64`). -/
def random_float (s : Nat × Nat) : ℚ × (Nat × Nat) :=
  (((random_u64 s).1 : ℚ) / ((2 ^ 64 - 1 : Nat) : ℚ), (random_u64 s).2)

/-- The C conversion of a non-integral arithmetic value to `int`:
truncation toward zero. -/
def c_trunc (q : ℚ) : Int := if q < 0 then ⌈q⌉ else ⌊q⌋

/-- `random_int_range` (common.c lines 96-99):
`d = abs(high - low) + 1; return random_float() * d + low;` with the final
expression truncated to `int`.  Returns (result, new state). -/
def random_int_range (s : Nat × Nat) (low high : Int) : Int × (Nat × Nat) :=
  (c_trunc ((random_float s).1 * ((((high - low).natAbs + 1 : Nat)) : ℚ) +
     (low : ℚ)),
   (random_float s).2)

/-! ### Basic facts about adjacency and the marker array -/

theorem adjacent_symm {p q : Pos} (h : adjacent p q) : adjacent q p := by
  rcases h with ⟨h1, h2⟩ | ⟨h1, h2⟩
  · exact Or.inl ⟨h1.symm, h2.symm⟩
  · exact Or.inr ⟨h1.symm, h2.symm⟩

theorem adjacent_ne {p q : Pos} (h : adjacent p q) : p ≠ q := by
  rcases h with ⟨h1, h2⟩ | ⟨h1, h2⟩ <;>
    · intro he
      rw [he] at h2
      omega

/-- Decomposition of adjacency into the four neighbour shapes, in the order
left, right, up, down relative to `p`. -/
theorem adjacent_cases (p r : Pos) : adjacent p r ↔
    (p.1.val = r.1.val + 1 ∧ p.2 = r.2) ∨ (r.1.val = p.1.val + 1 ∧ p.2 = r.2) ∨
    (p.2.val = r.2.val + 1 ∧ p.1 = r.1) ∨ (r.2.val = p.2.val + 1 ∧ p.1 = r.1) := by
  unfold adjacent
  simp only [Fin.ext_iff]
  omega

theorem markCell_apply (t : Pos → Nat) (q r : Pos) :
    markCell t q r = if r = q then (if t q = 2 then 2 else 1) else t r := by
  unfold markCell
  by_cases h2 : r = q
  · subst h2
    by_cases h : t r = 2 <;> simp [h]
  · by_cases h : t q = 2 <;> simp [h, h2, Function.update_noteq]

theorem markCell_apply_ne (t : Pos → Nat) {q r : Pos} (h : r ≠ q) :
    markCell t q r = t r := by
  rw [markCell_apply, if_neg h]

theorem markLeft_apply_eq (t : Pos → Nat) (p r : Pos)
    (h1 : p.1.val = r.1.val + 1) (h2 : p.2 = r.2) :
    markLeft t p r = if t r = 2 then 2 else 1 := by
  unfold markLeft
  rw [dif_pos (by omega : 0 < p.1.val)]
  have hr : r = ((⟨p.1.val - 1, by omega⟩ : Fin 22), p.2) := by
    refine Prod.ext (Fin.ext ?_) h2.symm
    show r.1.val = p.1.val - 1
    omega
  rw [markCell_apply, if_pos hr, ← hr]

theorem markLeft_apply_ne (t : Pos → Nat) (p r : Pos)
    (h : ¬(p.1.val = r.1.val + 1 ∧ p.2 = r.2)) :
    markLeft t p r = t r := by
  unfold markLeft
  split_ifs with hg
  · refine markCell_apply_ne t ?_
    intro he
    refine h ⟨?_, ?_⟩
    · have e1 := congrArg (fun z : Pos => z.1.val) he
      simp at e1
      omega
    · have e2 := congrArg (fun z : Pos => z.2) he
      simpa using e2.symm
  · rfl

theorem markRight_apply_eq (t : Pos → Nat) (p r : Pos)
    (h1 : r.1.val = p.1.val + 1) (h2 : p.2 = r.2) :
    markRight t p r = if t r = 2 then 2 else 1 := by
  unfold markRight
  have hb := r.1.isLt
  rw [dif_pos (by omega : p.1.val < 21)]
  have hr : r = ((⟨p.1.val + 1, by omega⟩ : Fin 22), p.2) := by
    refine Prod.ext (Fin.ext ?_) h2.symm
    show r.1.val = p.1.val + 1
    omega
  rw [markCell_apply, if_pos hr, ← hr]

theorem markRight_apply_ne (t : Pos → Nat) (p r : Pos)
    (h : ¬(r.1.val = p.1.val + 1 ∧ p.2 = r.2)) :
    markRight t p r = t r := by
  unfold markRight
  split_ifs with hg
  · refine markCell_apply_ne t ?_
    intro he
    refine h ⟨?_, ?_⟩
    · have e1 := congrArg (fun z : Pos => z.1.val) he
      simp at e1
      omega
    · have e2 := congrArg (fun z : Pos => z.2) he
      simpa using e2.symm
  · rfl

theorem markUp_apply_eq (t : Pos → Nat) (p r : Pos)
    (h1 : p.2.val = r.2.val + 1) (h2 : p.1 = r.1) :
    markUp t p r = if t r = 2 then 2 else 1 := by
  unfold markUp
  rw [dif_pos (by omega : 0 < p.2.val)]
  have hr : r = (p.1, (⟨p.2.val - 1, by omega⟩ : Fin 22)) := by
    refine Prod.ext h2.symm (Fin.ext ?_)
    show r.2.val = p.2.val - 1
    omega
  rw [markCell_apply, if_pos hr, ← hr]

theorem markUp_apply_ne (t : Pos → Nat) (p r : Pos)
    (h : ¬(p.2.val = r.2.val + 1 ∧ p.1 = r.1)) :
    markUp t p r = t r := by
  unfold markUp
  split_ifs with hg
  · refine markCell_apply_ne t ?_
    intro he
    refine h ⟨?_, ?_⟩
    · have e2 := congrArg (fun z : Pos => z.2.val) he
      simp at e2
      omega
    · have e1 := congrArg (fun z : Pos => z.1) he
      simpa using e1.symm
  · rfl

theorem markDown_apply_eq (t : Pos → Nat) (p r : Pos)
    (h1 : r.2.val = p.2.val + 1) (h2 : p.1 = r.1) :
    markDown t p r = if t r = 2 then 2 else 1 := by
  unfold markDown
  have hb := r.2.isLt
  rw [dif_pos (by omega : p.2.val < 21)]
  have hr : r = (p.1, (⟨p.2.val + 1, by omega⟩ : Fin 22)) := by
    refine Prod.ext h2.symm (Fin.ext ?_)
    show r.2.val = p.2.val + 1
    omega
  rw [markCell_apply, if_pos hr, ← hr]

theorem markDown_apply_ne (t : Pos → Nat) (p r : Pos)
    (h : ¬(r.2.val = p.2.val + 1 ∧ p.1 = r.1)) :
    markDown t p r = t r := by
  unfold markDown
  split_ifs with hg
  · refine markCell_apply_ne t ?_
    intro he
    refine h ⟨?_, ?_⟩
    · have e2 := congrArg (fun z : Pos => z.2.val) he
      simp at e2
      omega
    · have e1 := congrArg (fun z : Pos => z.1) he
      simpa using e1.symm
  · rfl

/-- Pointwise effect of marking the neighbours of `p`: exactly the cells
4-orthogonally adjacent to `p` are raised to `TODO` unless already `DONE`;
every other cell (including `p` itself) is untouched. -/
theorem markNeighbors_apply (t : Pos → Nat) (p r : Pos) :
    markNeighbors t p r = if adjacent p r then (if t r = 2 then 2 else 1) else t r := by
  unfold markNeighbors
  by_cases had : adjacent p r
  · rw [if_pos had]
    rcases (adjacent_cases p r).mp had with ⟨h1, h2⟩ | ⟨h1, h2⟩ | ⟨h1, h2⟩ | ⟨h1, h2⟩ <;>
      have h2v := congrArg Fin.val h2
    · rw [markDown_apply_ne _ _ _ (by
          intro hc
          have := congrArg Fin.val hc.2
          omega),
        markUp_apply_ne _ _ _ (by
          intro hc
          have := congrArg Fin.val hc.2
          omega),
        markRight_apply_ne _ _ _ (by
          intro hc
          omega),
        markLeft_apply_eq _ _ _ h1 h2]
    · rw [markDown_apply_ne _ _ _ (by
          intro hc
          have := congrArg Fin.val hc.2
          omega),
        markUp_apply_ne _ _ _ (by
          intro hc
          have := congrArg Fin.val hc.2
          omega),
        markRight_apply_eq _ _ _ h1 h2]
      rw [markLeft_apply_ne _ _ _ (by
          intro hc
          omega)]
    · rw [markDown_apply_ne _ _ _ (by
          intro hc
          omega),
        markUp_apply_eq _ _ _ h1 h2]
      rw [markRight_apply_ne _ _ _ (by
          intro hc
          have := congrArg Fin.val hc.2
          omega),
        markLeft_apply_ne _ _ _ (by
          intro hc
          have := congrArg Fin.val hc.2
          omega)]
    · rw [markDown_apply_eq _ _ _ h1 h2]
      rw [markUp_apply_ne _ _ _ (by
          intro hc
          omega),
        markRight_apply_ne _ _ _ (by
          intro hc
          have := congrArg Fin.val hc.2
          omega),
        markLeft_apply_ne _ _ _ (by
          intro hc
          have := congrArg Fin.val hc.2
          omega)]
  · rw [if_neg had]
    have hcases := (adjacent_cases p r).not.mp had
    push_neg at hcases
    rw [markDown_apply_ne _ _ _ (by
        intro hc
        exact had ((adjacent_cases p r).mpr (Or.inr (Or.inr (Or.inr hc))))),
      markUp_apply_ne _ _ _ (by
        intro hc
        exact had ((adjacent_cases p r).mpr (Or.inr (Or.inr (Or.inl hc))))),
      markRight_apply_ne _ _ _ (by
        intro hc
        exact had ((adjacent_cases p r).mpr (Or.inr (Or.inl hc)))),
      markLeft_apply_ne _ _ _ (by
        intro hc
        exact had ((adjacent_cases p r).mpr (Or.inl hc)))]

/-- Combined effect on the `todo` array of one visit of cell `p`:
`todo[p] = DONE` followed by marking the neighbours. -/
theorem visitTodo_apply (todo : Pos → Nat) (p r : Pos) :
    markNeighbors (Function.update todo p 2) p r =
      if r = p then 2
      else if adjacent p r then (if todo r = 2 then 2 else 1)
      else todo r := by
  rw [markNeighbors_apply]
  by_cases hrp : r = p
  · subst hrp
    rw [if_pos rfl, if_neg (fun had => adjacent_ne had rfl)]
    simp
  · rw [if_neg hrp]
    by_cases had : adjacent p r
    · rw [if_pos had, if_pos had, Function.update_noteq hrp]
    · rw [if_neg had, if_neg had, Function.update_noteq hrp]

/-- One cell step of `flood` under a tile-preserving, never-stopping visitor
`mkV A`, in closed form. -/
theorem floodCell_mkV {σ : Type} (A : σ → Nat → Pos → σ) (mask target : Nat)
    (s : FloodState σ) (c : Bool) (p : Pos) (hstop : s.stopped = false) :
    floodCell mask target (mkV A) (s, c) p =
      if s.todo p = 1 then
        (if matchFn s.grid mask target p then
          ({ grid := s.grid,
             todo := markNeighbors (Function.update s.todo p 2) p,
             steps := s.steps + 1,
             data := A s.data (s.grid p) p,
             stopped := false }, false)
        else (s, false))
      else (s, c) := by
  unfold floodCell mkV
  simp only [hstop, Bool.false_eq_true, if_false]
  by_cases h1 : s.todo p = 1 <;> by_cases h2 : matchFn s.grid mask target p <;>
    simp [h1, h2, Function.update_eq_self]

/-! ### Pairing a run of `flood` under any tile-preserving, never-stopping
visitor with the run of the recording visitor: the control state evolves
identically and the data accumulator is the fold of the action over the
recorded visit list. -/

/-- Replay an action over a visit list (newest first): the oldest visit is
applied first. -/
def replayA {σ : Type} (A : σ → Nat → Pos → σ) (g : Grid) (d : σ)
    (L : List Pos) : σ :=
  L.foldr (fun p d2 => A d2 (g p) p) d

/-- The pairing relation between a `mkV A` run and the recording run. -/
def PairRel {σ : Type} (A : σ → Nat → Pos → σ) (g0 : Grid) (d0 : σ)
    (s1 : FloodState σ) (s2 : FloodState (List Pos)) : Prop :=
  s1.grid = g0 ∧ s2.grid = g0 ∧ s1.todo = s2.todo ∧ s1.steps = s2.steps ∧
  s1.stopped = false ∧ s2.stopped = false ∧ s1.data = replayA A g0 d0 s2.data

theorem floodCell_pair {σ : Type} (A : σ → Nat → Pos → σ) (g0 : Grid) (d0 : σ)
    (mask target : Nat) (s1 : FloodState σ) (s2 : FloodState (List Pos))
    (c : Bool) (p : Pos) (hrel : PairRel A g0 d0 s1 s2) :
    PairRel A g0 d0 (floodCell mask target (mkV A) (s1, c) p).1
      (floodCell mask target (mkV recA) (s2, c) p).1 ∧
    (floodCell mask target (mkV A) (s1, c) p).2 =
      (floodCell mask target (mkV recA) (s2, c) p).2 := by
  obtain ⟨hg1, hg2, ht, hs, hp1, hp2, hd⟩ := hrel
  rw [floodCell_mkV A mask target s1 c p hp1, floodCell_mkV recA mask target s2 c p hp2]
  rw [hg1, hg2, ht, hs]
  by_cases h1 : s2.todo p = 1
  · rw [if_pos h1, if_pos h1]
    by_cases h2 : matchFn g0 mask target p
    · rw [if_pos h2, if_pos h2]
      refine ⟨⟨rfl, rfl, rfl, rfl, rfl, rfl, ?_⟩, rfl⟩
      show A s1.data (g0 p) p = replayA A g0 d0 (recA s2.data (g0 p) p)
      show A s1.data (g0 p) p = A (replayA A g0 d0 s2.data) (g0 p) p
      rw [hd]
    · rw [if_neg h2, if_neg h2]
      exact ⟨⟨hg1, hg2, ht, hs, hp1, hp2, hd⟩, rfl⟩
  · rw [if_neg h1, if_neg h1]
    exact ⟨⟨hg1, hg2, ht, hs, hp1, hp2, hd⟩, rfl⟩

theorem foldl_pair {σ : Type} (A : σ → Nat → Pos → σ) (g0 : Grid) (d0 : σ)
    (mask target : Nat) :
    ∀ (L : List Pos) (s1 : FloodState σ) (s2 : FloodState (List Pos)) (c : Bool),
    PairRel A g0 d0 s1 s2 →
    PairRel A g0 d0 (L.foldl (floodCell mask target (mkV A)) (s1, c)).1
      (L.foldl (floodCell mask target (mkV recA)) (s2, c)).1 ∧
    (L.foldl (floodCell mask target (mkV A)) (s1, c)).2 =
      (L.foldl (floodCell mask target (mkV recA)) (s2, c)).2
  | [], s1, s2, c, hrel => ⟨hrel, rfl⟩
  | p :: L, s1, s2, c, hrel => by
    have hstep := floodCell_pair A g0 d0 mask target s1 s2 c p hrel
    simp only [List.foldl_cons]
    have e1 : floodCell mask target (mkV A) (s1, c) p =
        ((floodCell mask target (mkV A) (s1, c) p).1,
         (floodCell mask target (mkV A) (s1, c) p).2) := rfl
    have e2 : floodCell mask target (mkV recA) (s2, c) p =
        ((floodCell mask target (mkV recA) (s2, c) p).1,
         (floodCell mask target (mkV recA) (s2, c) p).2) := rfl
    rw [e1, e2, hstep.2]
    exact foldl_pair A g0 d0 mask target L _ _ _ hstep.1

theorem floodSweep_pair {σ : Type} (A : σ → Nat → Pos → σ) (g0 : Grid) (d0 : σ)
    (mask target : Nat) (s1 : FloodState σ) (s2 : FloodState (List Pos))
    (hrel : PairRel A g0 d0 s1 s2) :
    PairRel A g0 d0 (floodSweep mask target (mkV A) s1).1
      (floodSweep mask target (mkV recA) s2).1 ∧
    (floodSweep mask target (mkV A) s1).2 =
      (floodSweep mask target (mkV recA) s2).2 :=
  foldl_pair A g0 d0 mask target RM s1 s2 true hrel

theorem floodLoop_pair {σ : Type} (A : σ → Nat → Pos → σ) (g0 : Grid) (d0 : σ)
    (mask target : Nat) :
    ∀ (n : Nat) (s1 : FloodState σ) (s2 : FloodState (List Pos)),
    PairRel A g0 d0 s1 s2 →
    PairRel A g0 d0 (floodLoop mask target (mkV A) n s1)
      (floodLoop mask target (mkV recA) n s2)
  | 0, _, _, hrel => hrel
  | n + 1, s1, s2, hrel => by
    have hsw := floodSweep_pair A g0 d0 mask target s1 s2 hrel
    simp only [floodLoop, hrel.2.2.2.2.1, hrel.2.2.2.2.2.1, Bool.false_eq_true,
      if_false]
    rw [hsw.2]
    by_cases hc : (floodSweep mask target (mkV recA) s2).2 = true
    · rw [if_pos hc, if_pos hc]
      exact hsw.1
    · rw [if_neg hc, if_neg hc]
      exact floodLoop_pair A g0 d0 mask target n _ _ hsw.1

/-- The pairing theorem: running `flood` with any tile-preserving,
never-stopping visitor `mkV A` keeps the grid intact, never stops, takes the
same number of steps as the recording run, and produces as data the fold of
`A` over the recorded visit list (oldest visit first). -/
theorem flood_pair {σ : Type} (A : σ → Nat → Pos → σ) (g0 : Grid)
    (start : Pos) (mask target : Nat) (d0 : σ) :
    PairRel A g0 d0 (flood g0 start mask target (mkV A) d0)
      (flood g0 start mask target (mkV recA) []) := by
  exact floodLoop_pair A g0 d0 mask target (22 * 22) _ _
    ⟨rfl, rfl, rfl, rfl, rfl, rfl, rfl⟩

/-! ### Invariants of the recording run -/

/-- Invariant of the state of `flood` under the recording visitor:
the grid is untouched, no stop was requested, the visit list enumerates the
`DONE` cells without duplicates, the step counter counts the visits, every
`DONE` cell belongs to the start's connected matching component, every `TODO`
cell is the start or a neighbour of a `DONE` cell, every neighbour of a
`DONE` cell is marked, and the start stays marked. -/
structure RInv (g0 : Grid) (start : Pos) (mask target : Nat)
    (s : FloodState (List Pos)) : Prop where
  grid_eq : s.grid = g0
  stop_eq : s.stopped = false
  nodup : s.data.Nodup
  mem_iff : ∀ p, p ∈ s.data ↔ s.todo p = 2
  steps_eq : s.steps = s.data.length
  done_comp : ∀ p, s.todo p = 2 → inComp g0 start mask target p
  todo_from : ∀ p, s.todo p = 1 → p = start ∨ ∃ q, s.todo q = 2 ∧ adjacent q p
  done_nbr : ∀ q p, s.todo q = 2 → adjacent q p → s.todo p ≠ 0
  start_ne : s.todo start ≠ 0
  le_two : ∀ p, s.todo p ≤ 2

theorem RInv_init (g0 : Grid) (start : Pos) (mask target : Nat) :
    RInv g0 start mask target (floodInit g0 start []) := by
  have happ : ∀ p : Pos, Function.update (fun _ : Pos => (0 : Nat)) start 1 p =
      if p = start then 1 else 0 := by
    intro p
    by_cases h : p = start
    · subst h
      simp
    · rw [Function.update_noteq h, if_neg h]
  refine ⟨rfl, rfl, List.nodup_nil, ?_, rfl, ?_, ?_, ?_, ?_, ?_⟩
  · intro p
    show p ∈ ([] : List Pos) ↔ Function.update (fun _ : Pos => (0 : Nat)) start 1 p = 2
    rw [happ]
    constructor
    · intro h
      exact absurd h (List.not_mem_nil p)
    · intro h
      split_ifs at h <;> try omega
  · intro p h
    replace h : Function.update (fun _ : Pos => (0 : Nat)) start 1 p = 2 := h
    rw [happ] at h
    split_ifs at h <;> try omega
  · intro p h
    replace h : Function.update (fun _ : Pos => (0 : Nat)) start 1 p = 1 := h
    rw [happ] at h
    split_ifs at h with he
    exact Or.inl he
  · intro q p h
    replace h : Function.update (fun _ : Pos => (0 : Nat)) start 1 q = 2 := h
    rw [happ] at h
    split_ifs at h <;> try omega
  · show Function.update (fun _ : Pos => (0 : Nat)) start 1 start ≠ 0
    rw [happ, if_pos rfl]
    omega
  · intro p
    show Function.update (fun _ : Pos => (0 : Nat)) start 1 p ≤ 2
    rw [happ]
    split_ifs <;> omega

theorem RInv_cell (g0 : Grid) (start : Pos) (mask target : Nat)
    (s : FloodState (List Pos)) (c : Bool) (p : Pos)
    (hinv : RInv g0 start mask target s) :
    RInv g0 start mask target (floodCell mask target (mkV recA) (s, c) p).1 := by
  rw [floodCell_mkV recA mask target s c p hinv.stop_eq]
  by_cases h1 : s.todo p = 1
  · rw [if_pos h1]
    by_cases h2 : matchFn s.grid mask target p
    · rw [if_pos h2]
      rw [hinv.grid_eq] at h2
      have hnt := visitTodo_apply s.todo p
      have hpd : (p : Pos) ∉ s.data := by
        intro hmem
        rw [hinv.mem_iff p] at hmem
        omega
      have hpcomp : inComp g0 start mask target p := by
        rcases hinv.todo_from p h1 with he | ⟨q, hq2, hadj⟩
        · exact ⟨h2, he ▸ Relation.ReflTransGen.refl⟩
        · obtain ⟨hMq, hchain⟩ := hinv.done_comp q hq2
          exact ⟨h2, hchain.tail ⟨hMq, h2, hadj⟩⟩
      have htodo2 : ∀ r, (markNeighbors (Function.update s.todo p 2) p) r = 2 ↔
          (r = p ∨ s.todo r = 2) := by
        intro r
        rw [hnt r]
        by_cases hrp : r = p
        · simp [hrp]
        · rw [if_neg hrp]
          by_cases hadj : adjacent p r
          · rw [if_pos hadj]
            constructor
            · intro h
              split_ifs at h with hh
              · exact Or.inr hh
              · omega
            · intro h
              rcases h with h | h
              · exact absurd h hrp
              · rw [if_pos h]
          · rw [if_neg hadj]
            constructor
            · exact fun h => Or.inr h
            · intro h
              rcases h with h | h
              · exact absurd h hrp
              · exact h
      refine ⟨hinv.grid_eq, rfl, ?_, ?_, ?_, ?_, ?_, ?_, ?_, ?_⟩
      · exact List.Nodup.cons hpd hinv.nodup
      · intro q
        show q ∈ p :: s.data ↔ _
        rw [List.mem_cons, htodo2 q, hinv.mem_iff q]
      · show s.steps + 1 = (p :: s.data).length
        rw [List.length_cons, hinv.steps_eq]
      · intro q hq
        replace hq : markNeighbors (Function.update s.todo p 2) p q = 2 := hq
        rcases (htodo2 q).mp hq with he | ho
        · exact he ▸ hpcomp
        · exact hinv.done_comp q ho
      · intro q hq
        replace hq : markNeighbors (Function.update s.todo p 2) p q = 1 := hq
        rw [hnt q] at hq
        by_cases hrp : q = p
        · rw [if_pos hrp] at hq
          omega
        · rw [if_neg hrp] at hq
          by_cases hadj : adjacent p q
          · refine Or.inr ⟨p, ?_, hadj⟩
            exact (htodo2 p).mpr (Or.inl rfl)
          · rw [if_neg hadj] at hq
            rcases hinv.todo_from q hq with he | ⟨w, hw2, hwadj⟩
            · exact Or.inl he
            · exact Or.inr ⟨w, (htodo2 w).mpr (Or.inr hw2), hwadj⟩
      · intro q r hq hadj
        replace hq : markNeighbors (Function.update s.todo p 2) p q = 2 := hq
        show markNeighbors (Function.update s.todo p 2) p r ≠ 0
        rw [hnt r]
        by_cases hrp : r = p
        · rw [if_pos hrp]
          omega
        · rw [if_neg hrp]
          by_cases hpr : adjacent p r
          · rw [if_pos hpr]
            split_ifs <;> omega
          · rw [if_neg hpr]
            rcases (htodo2 q).mp hq with he | ho
            · exact absurd (he ▸ hadj) hpr
            · exact hinv.done_nbr q r ho hadj
      · show markNeighbors (Function.update s.todo p 2) p start ≠ 0
        rw [hnt start]
        by_cases hsp : start = p
        · rw [if_pos hsp]
          omega
        · rw [if_neg hsp]
          by_cases hadj : adjacent p start
          · rw [if_pos hadj]
            split_ifs <;> omega
          · rw [if_neg hadj]
            exact hinv.start_ne
      · intro q
        show markNeighbors (Function.update s.todo p 2) p q ≤ 2
        rw [hnt q]
        have := hinv.le_two q
        split_ifs <;> omega
    · rw [if_neg h2]
      exact hinv
  · rw [if_neg h1]
    exact hinv

theorem RInv_fold (g0 : Grid) (start : Pos) (mask target : Nat) :
    ∀ (L : List Pos) (s : FloodState (List Pos)) (c : Bool),
    RInv g0 start mask target s →
    RInv g0 start mask target
      ((L.foldl (floodCell mask target (mkV recA)) (s, c)).1)
  | [], _, _, hinv => hinv
  | p :: L, s, c, hinv => by
    simp only [List.foldl_cons]
    have hstep := RInv_cell g0 start mask target s c p hinv
    have e : floodCell mask target (mkV recA) (s, c) p =
        ((floodCell mask target (mkV recA) (s, c) p).1,
         (floodCell mask target (mkV recA) (s, c) p).2) := rfl
    rw [e]
    exact RInv_fold g0 start mask target L _ _ hstep

theorem RInv_loop (g0 : Grid) (start : Pos) (mask target : Nat) :
    ∀ (n : Nat) (s : FloodState (List Pos)),
    RInv g0 start mask target s →
    RInv g0 start mask target (floodLoop mask target (mkV recA) n s)
  | 0, _, hinv => hinv
  | n + 1, s, hinv => by
    simp only [floodLoop, hinv.stop_eq, Bool.false_eq_true, if_false]
    have hsw : RInv g0 start mask target (floodSweep mask target (mkV recA) s).1 :=
      RInv_fold g0 start mask target RM s true hinv
    by_cases hc : (floodSweep mask target (mkV recA) s).2 = true
    · rw [if_pos hc]
      exact hsw
    · rw [if_neg hc]
      exact RInv_loop g0 start mask target n _ hsw

theorem RInv_flood (g0 : Grid) (start : Pos) (mask target : Nat) :
    RInv g0 start mask target (flood g0 start mask target (mkV recA) []) :=
  RInv_loop g0 start mask target (22 * 22) _ (RInv_init g0 start mask target)

/-! ### Progress: the bounded outer loop saturates the component -/

/-- A cell that a scan would visit: marked `TODO` and matching. -/
def live (mask target : Nat) (s : FloodState (List Pos)) (p : Pos) : Prop :=
  s.todo p = 1 ∧ matchFn s.grid mask target p = true

theorem RM_mem_all (p : Pos) : p ∈ RM := by
  unfold RM
  rw [List.mem_flatMap]
  exact ⟨p.2, List.mem_finRange p.2, by
    rw [List.mem_map]
    exact ⟨p.1, List.mem_finRange p.1, rfl⟩⟩

theorem floodCell_not_live (mask target : Nat) (s : FloodState (List Pos))
    (c : Bool) (p : Pos) (hstop : s.stopped = false)
    (h : ¬ live mask target s p) :
    (floodCell mask target (mkV recA) (s, c) p).1 = s := by
  rw [floodCell_mkV recA mask target s c p hstop]
  by_cases h1 : s.todo p = 1
  · rw [if_pos h1]
    have h2 : ¬ matchFn s.grid mask target p = true := fun h2 => h ⟨h1, h2⟩
    rw [if_neg h2]
  · rw [if_neg h1]

theorem floodCell_flag_false {σ : Type} (mask target : Nat) (v : Visitor σ)
    (s : FloodState σ) (p : Pos) :
    (floodCell mask target v (s, false) p).2 = false := by
  unfold floodCell
  by_cases h0 : s.stopped = true
  · simp [h0]
  · simp only [Bool.not_eq_true] at h0
    simp only [h0, Bool.false_eq_true, if_false]
    by_cases h1 : s.todo p = 1
    · by_cases h2 : matchFn s.grid mask target p
      · by_cases h3 : (v (s.grid p) p s.data).2.2 = true <;>
          simp [h1, h2, h3]
      · simp [h1, h2]
    · simp [h1]

theorem fold_flag_false {σ : Type} (mask target : Nat) (v : Visitor σ) :
    ∀ (L : List Pos) (s : FloodState σ),
    ((L.foldl (floodCell mask target v) (s, false)).2) = false
  | [], _ => rfl
  | p :: L, s => by
    simp only [List.foldl_cons]
    have e : floodCell mask target v (s, false) p =
        ((floodCell mask target v (s, false) p).1,
         (floodCell mask target v (s, false) p).2) := rfl
    rw [e, floodCell_flag_false]
    exact fold_flag_false mask target v L _

theorem fold_steps_mono (g0 : Grid) (start : Pos) (mask target : Nat) :
    ∀ (L : List Pos) (s : FloodState (List Pos)) (c : Bool),
    RInv g0 start mask target s →
    s.steps ≤ ((L.foldl (floodCell mask target (mkV recA)) (s, c)).1).steps
  | [], _, _, _ => le_refl _
  | p :: L, s, c, hinv => by
    simp only [List.foldl_cons]
    have hstep := RInv_cell g0 start mask target s c p hinv
    have e : floodCell mask target (mkV recA) (s, c) p =
        ((floodCell mask target (mkV recA) (s, c) p).1,
         (floodCell mask target (mkV recA) (s, c) p).2) := rfl
    have hle : s.steps ≤ (floodCell mask target (mkV recA) (s, c) p).1.steps := by
      rw [floodCell_mkV recA mask target s c p hinv.stop_eq]
      by_cases h1 : s.todo p = 1
      · rw [if_pos h1]
        by_cases h2 : matchFn s.grid mask target p
        · rw [if_pos h2]
          exact Nat.le_succ _
        · rw [if_neg h2]
      · rw [if_neg h1]
    rw [e]
    exact le_trans hle (fold_steps_mono g0 start mask target L _ _ hstep)

theorem fold_progress (g0 : Grid) (start : Pos) (mask target : Nat) :
    ∀ (L : List Pos) (s : FloodState (List Pos)) (c : Bool),
    RInv g0 start mask target s →
    (∃ p ∈ L, live mask target s p) →
    s.steps < ((L.foldl (floodCell mask target (mkV recA)) (s, c)).1).steps
  | [], _, _, _, hex => absurd hex (by simp)
  | p :: L, s, c, hinv, hex => by
    simp only [List.foldl_cons]
    have e : floodCell mask target (mkV recA) (s, c) p =
        ((floodCell mask target (mkV recA) (s, c) p).1,
         (floodCell mask target (mkV recA) (s, c) p).2) := rfl
    by_cases hp : live mask target s p
    · have hvisit : (floodCell mask target (mkV recA) (s, c) p).1.steps = s.steps + 1 := by
        rw [floodCell_mkV recA mask target s c p hinv.stop_eq,
          if_pos hp.1, if_pos hp.2]
      have hstep := RInv_cell g0 start mask target s c p hinv
      rw [e]
      have := fold_steps_mono g0 start mask target L
        (floodCell mask target (mkV recA) (s, c) p).1
        (floodCell mask target (mkV recA) (s, c) p).2 hstep
      omega
    · have hcell := floodCell_not_live mask target s c p hinv.stop_eq hp
      obtain ⟨q, hqmem, hqlive⟩ := hex
      have hq : q ∈ L := by
        rcases List.mem_cons.mp hqmem with he | hm
        · exact absurd (he ▸ hqlive) hp
        · exact hm
      rw [e, hcell]
      exact fold_progress g0 start mask target L s _ hinv ⟨q, hq, hqlive⟩

theorem fold_no_live (mask target : Nat) :
    ∀ (L : List Pos) (s : FloodState (List Pos)) (c : Bool),
    s.stopped = false →
    (∀ p, ¬ live mask target s p) →
    ((L.foldl (floodCell mask target (mkV recA)) (s, c)).1) = s
  | [], _, _, _, _ => rfl
  | p :: L, s, c, hstop, hnl => by
    simp only [List.foldl_cons]
    have hcell := floodCell_not_live mask target s c p hstop (hnl p)
    have e : floodCell mask target (mkV recA) (s, c) p =
        ((floodCell mask target (mkV recA) (s, c) p).1,
         (floodCell mask target (mkV recA) (s, c) p).2) := rfl
    rw [e, hcell]
    exact fold_no_live mask target L s _ hstop hnl

theorem fold_cleared (mask target : Nat) :
    ∀ (L : List Pos) (s : FloodState (List Pos)) (c : Bool),
    s.stopped = false →
    (L.foldl (floodCell mask target (mkV recA)) (s, c)).2 = true →
    (L.foldl (floodCell mask target (mkV recA)) (s, c)).1 = s ∧
      (∀ p ∈ L, s.todo p ≠ 1)
  | [], _, _, _, _ => ⟨rfl, by simp⟩
  | p :: L, s, c, hstop, hflag => by
    simp only [List.foldl_cons] at hflag ⊢
    by_cases h1 : s.todo p = 1
    · exfalso
      have hfalse : (floodCell mask target (mkV recA) (s, c) p).2 = false := by
        rw [floodCell_mkV recA mask target s c p hstop, if_pos h1]
        by_cases h2 : matchFn s.grid mask target p
        · rw [if_pos h2]
        · rw [if_neg h2]
      have e : floodCell mask target (mkV recA) (s, c) p =
          ((floodCell mask target (mkV recA) (s, c) p).1, false) := by
        rw [← hfalse]
      rw [e, fold_flag_false] at hflag
      exact Bool.false_ne_true hflag
    · have hcell : floodCell mask target (mkV recA) (s, c) p = (s, c) := by
        rw [floodCell_mkV recA mask target s c p hstop, if_neg h1]
      rw [hcell] at hflag ⊢
      obtain ⟨hst, hall⟩ := fold_cleared mask target L s c hstop hflag
      refine ⟨hst, ?_⟩
      intro q hq
      rcases List.mem_cons.mp hq with he | hm
      · exact he ▸ h1
      · exact hall q hm

theorem floodSweep_eq_foldl {σ : Type} (mask target : Nat) (v : Visitor σ)
    (s : FloodState σ) :
    floodSweep mask target v s = RM.foldl (floodCell mask target v) (s, true) := rfl

theorem loop_no_live (g0 : Grid) (start : Pos) (mask target : Nat) :
    ∀ (n : Nat) (s : FloodState (List Pos)),
    RInv g0 start mask target s →
    (∀ p, ¬ live mask target s p) →
    floodLoop mask target (mkV recA) n s = s
  | 0, _, _, _ => rfl
  | n + 1, s, hinv, hnl => by
    simp only [floodLoop, hinv.stop_eq, Bool.false_eq_true, if_false]
    have hst := fold_no_live mask target RM s true hinv.stop_eq hnl
    by_cases hc : (floodSweep mask target (mkV recA) s).2 = true
    · rw [if_pos hc]
      exact hst
    · rw [if_neg hc]
      show floodLoop mask target (mkV recA) n (floodSweep mask target (mkV recA) s).1 = s
      rw [show (floodSweep mask target (mkV recA) s).1 = s from hst]
      exact loop_no_live g0 start mask target n s hinv hnl

theorem loop_progress (g0 : Grid) (start : Pos) (mask target : Nat) :
    ∀ (n : Nat) (s : FloodState (List Pos)),
    RInv g0 start mask target s →
    (∃ p, live mask target (floodLoop mask target (mkV recA) n s) p) →
    s.steps + n ≤ (floodLoop mask target (mkV recA) n s).steps
  | 0, s, _, _ => Nat.le_refl _
  | n + 1, s, hinv, hex => by
    simp only [floodLoop, hinv.stop_eq, Bool.false_eq_true, if_false] at hex ⊢
    by_cases hc : (floodSweep mask target (mkV recA) s).2 = true
    · rw [if_pos hc] at hex ⊢
      exfalso
      obtain ⟨hst, hall⟩ := fold_cleared mask target RM s true hinv.stop_eq hc
      obtain ⟨p, hp⟩ := hex
      rw [show (floodSweep mask target (mkV recA) s).1 = s from hst] at hp
      exact hall p (RM_mem_all p) hp.1
    · rw [if_neg hc] at hex ⊢
      rw [floodSweep_eq_foldl] at hex ⊢
      by_cases hlive : ∃ p, live mask target s p
      · obtain ⟨p, hpm, hpl⟩ : ∃ p ∈ RM, live mask target s p := by
          obtain ⟨p, hp⟩ := hlive
          exact ⟨p, RM_mem_all p, hp⟩
        have hlt : s.steps <
            ((RM.foldl (floodCell mask target (mkV recA)) (s, true)).1).steps :=
          fold_progress g0 start mask target RM s true hinv ⟨p, hpm, hpl⟩
        have hinv2 : RInv g0 start mask target
            (RM.foldl (floodCell mask target (mkV recA)) (s, true)).1 :=
          RInv_fold g0 start mask target RM s true hinv
        have := loop_progress g0 start mask target n _ hinv2 hex
        omega
      · push_neg at hlive
        have hst := fold_no_live mask target RM s true hinv.stop_eq hlive
        rw [hst] at hex ⊢
        rw [loop_no_live g0 start mask target n s hinv hlive] at hex
        obtain ⟨p, hp⟩ := hex
        exact absurd hp (hlive p)

theorem card_Pos : Fintype.card Pos = 484 := by
  simp [Fintype.card_prod]

theorem flood_eq_loop {σ : Type} (g : Grid) (start : Pos) (mask target : Nat)
    (v : Visitor σ) (d : σ) :
    flood g start mask target v d =
      floodLoop mask target v (22 * 22) (floodInit g start d) := rfl

/-- After the bounded outer loop no matching `TODO` cell remains. -/
theorem flood_no_live (g0 : Grid) (start : Pos) (mask target : Nat) :
    ∀ p, ¬ live mask target (flood g0 start mask target (mkV recA) []) p := by
  intro p hp
  have hinvF : RInv g0 start mask target (flood g0 start mask target (mkV recA) []) :=
    RInv_flood g0 start mask target
  have h484 : 484 ≤ (flood g0 start mask target (mkV recA) []).steps := by
    have hp2 : live mask target
        (floodLoop mask target (mkV recA) (22 * 22) (floodInit g0 start [])) p := by
      rw [← flood_eq_loop]
      exact hp
    have h := loop_progress g0 start mask target (22 * 22) (floodInit g0 start [])
      (RInv_init g0 start mask target) ⟨p, hp2⟩
    rw [flood_eq_loop]
    have h0 : (floodInit g0 start ([] : List Pos)).steps = 0 := rfl
    omega
  have hle : (flood g0 start mask target (mkV recA) []).steps ≤ 484 := by
    rw [hinvF.steps_eq, ← List.toFinset_card_of_nodup hinvF.nodup]
    calc (flood g0 start mask target (mkV recA) []).data.toFinset.card
        ≤ Fintype.card Pos := Finset.card_le_univ _
      _ = 484 := card_Pos
  have hcard : (flood g0 start mask target (mkV recA) []).data.toFinset.card =
      Fintype.card Pos := by
    rw [card_Pos]
    rw [hinvF.steps_eq, ← List.toFinset_card_of_nodup hinvF.nodup] at h484 hle
    omega
  have huniv : (flood g0 start mask target (mkV recA) []).data.toFinset =
      Finset.univ := Finset.eq_univ_of_card _ hcard
  have hmem : p ∈ (flood g0 start mask target (mkV recA) []).data := by
    rw [← List.mem_toFinset, huniv]
    exact Finset.mem_univ p
  rw [hinvF.mem_iff p] at hmem
  have := hp.1
  omega

/-- Completeness: every cell of the connected matching component is `DONE`
when `flood` returns. -/
theorem flood_done_of_inComp (g0 : Grid) (start : Pos) (mask target : Nat)
    (p : Pos) (hp : inComp g0 start mask target p) :
    (flood g0 start mask target (mkV recA) []).todo p = 2 := by
  have hinvF : RInv g0 start mask target (flood g0 start mask target (mkV recA) []) :=
    RInv_flood g0 start mask target
  have hnl := flood_no_live g0 start mask target
  obtain ⟨hM, hchain⟩ := hp
  have main : ∀ b, Relation.ReflTransGen (floodStep (matchFn g0 mask target)) start b →
      matchFn g0 mask target b = true →
      (flood g0 start mask target (mkV recA) []).todo b = 2 := by
    intro b hb
    induction hb with
    | refl =>
      intro hMs
      have h0 := hinvF.start_ne
      have h2 := hinvF.le_two start
      have h1 : (flood g0 start mask target (mkV recA) []).todo start ≠ 1 := by
        intro h1
        exact hnl start ⟨h1, by rw [hinvF.grid_eq]; exact hMs⟩
      omega
    | @tail q r hqb hstep ih =>
      intro hMb
      have hq2 := ih hstep.1
      have hne0 := hinvF.done_nbr q r hq2 hstep.2.2
      have hle2 := hinvF.le_two r
      have hne1 : (flood g0 start mask target (mkV recA) []).todo r ≠ 1 := by
        intro h1
        exact hnl r ⟨h1, by rw [hinvF.grid_eq]; exact hMb⟩
      omega
  exact main p hchain hM

/-! ### The flood characterisation -/

/-- The visit list of `flood` enumerates exactly the connected matching
component of the start. -/
theorem floodVisits_mem (g0 : Grid) (start : Pos) (mask target : Nat) (p : Pos) :
    p ∈ floodVisits g0 start mask target ↔ inComp g0 start mask target p := by
  have hinvF : RInv g0 start mask target (flood g0 start mask target (mkV recA) []) :=
    RInv_flood g0 start mask target
  unfold floodVisits
  rw [hinvF.mem_iff p]
  constructor
  · exact hinvF.done_comp p
  · exact flood_done_of_inComp g0 start mask target p

theorem floodVisits_nodup (g0 : Grid) (start : Pos) (mask target : Nat) :
    (floodVisits g0 start mask target).Nodup :=
  (RInv_flood g0 start mask target).nodup

theorem flood_rec_steps (g0 : Grid) (start : Pos) (mask target : Nat) :
    (flood g0 start mask target (mkV recA) []).steps =
      (floodVisits g0 start mask target).length :=
  (RInv_flood g0 start mask target).steps_eq

/-- The step count of the recording run is the size of the connected
matching component. -/
theorem flood_rec_steps_ncard (g0 : Grid) (start : Pos) (mask target : Nat) :
    (flood g0 start mask target (mkV recA) []).steps =
      (setOf (inComp g0 start mask target)).ncard := by
  have hset : setOf (inComp g0 start mask target) =
      ((floodVisits g0 start mask target).toFinset : Set Pos) := by
    ext p
    rw [Set.mem_setOf_eq, Finset.mem_coe, List.mem_toFinset, floodVisits_mem]
  rw [hset, Set.ncard_coe_Finset,
    List.toFinset_card_of_nodup (floodVisits_nodup g0 start mask target),
    flood_rec_steps]

/-! ### Bit algebra -/

theorem BIT_eq_pow (n : Nat) : BIT n = 2 ^ n := Nat.one_shiftLeft n

theorem hasBit_iff (t n : Nat) : hasBit t n = true ↔ t.testBit n = true := by
  unfold hasBit
  rw [BIT_eq_pow, bne_iff_ne, ne_eq]
  constructor
  · intro h
    by_contra hb
    apply h
    apply Nat.eq_of_testBit_eq
    intro i
    rw [Nat.testBit_land, Nat.zero_testBit, Nat.testBit_two_pow]
    by_cases hi : n = i
    · subst hi
      simp only [Bool.not_eq_true] at hb
      rw [hb]
      rfl
    · rw [decide_eq_false hi, Bool.and_false]
  · intro h hz
    have : (t &&& 2 ^ n).testBit n = true := by
      rw [Nat.testBit_land, h, Nat.testBit_two_pow_self]
      rfl
    rw [hz, Nat.zero_testBit] at this
    exact Bool.false_ne_true this

/-- The OR-accumulating action of `flood_record_tiles`. -/
def orA : Nat → Nat → Pos → Nat := fun s t _ => s ||| t

theorem flood_record_tiles_eq : flood_record_tiles = mkV orA := rfl

/-- Bits of the OR of all tiles of a visit list. -/
theorem replay_or_testBit (g : Grid) (L : List Pos) (k : Nat) :
    (replayA orA g 0 L).testBit k = true ↔
      ∃ p ∈ L, (g p).testBit k = true := by
  induction L with
  | nil =>
    simp [replayA]
  | cons p L ih =>
    show ((replayA orA g 0 L) ||| (g p)).testBit k = true ↔ _
    rw [Nat.testBit_lor, Bool.or_eq_true, ih]
    constructor
    · intro h
      rcases h with ⟨q, hq, hb⟩ | hb
      · exact ⟨q, List.mem_cons_of_mem p hq, hb⟩
      · exact ⟨p, List.mem_cons_self p L, hb⟩
    · intro ⟨q, hq, hb⟩
      rcases List.mem_cons.mp hq with he | hm
      · exact Or.inr (he ▸ hb)
      · exact Or.inl ⟨q, hm, hb⟩

theorem keyExit_testBit (i : Nat) :
    keyExitBits.testBit i = (decide (7 = i) || decide (4 = i)) := by
  show (BIT 7 ||| BIT 4).testBit i = _
  rw [Nat.testBit_lor, BIT_eq_pow, BIT_eq_pow, Nat.testBit_two_pow,
    Nat.testBit_two_pow]

theorem land_keyExit (d : Nat) :
    ((d &&& keyExitBits) == keyExitBits) = true ↔
      (d.testBit KEY = true ∧ d.testBit EXIT = true) := by
  rw [beq_iff_eq]
  constructor
  · intro h
    constructor
    · have := congrArg (fun z => z.testBit 7) h
      simp only [Nat.testBit_land, keyExit_testBit] at this
      simpa using this
    · have := congrArg (fun z => z.testBit 4) h
      simp only [Nat.testBit_land, keyExit_testBit] at this
      simpa using this
  · intro ⟨hk, he⟩
    apply Nat.eq_of_testBit_eq
    intro i
    rw [Nat.testBit_land, keyExit_testBit]
    by_cases h7 : (7 : Nat) = i
    · subst h7
      rw [show d.testBit 7 = true from hk]
      rfl
    · by_cases h4 : (4 : Nat) = i
      · subst h4
        rw [show d.testBit 4 = true from he]
        rfl
      · rw [decide_eq_false h7, decide_eq_false h4]
        simp

/-! ### Characterising `level_is_completable` -/

theorem pair_fst {α β : Type} (a : α) (b : β) : (a, b).1 = a := rfl

theorem pair_snd {α β : Type} (a : α) (b : β) : (a, b).2 = b := rfl

theorem lic_eq_none (g : Grid) (h : find_player g = none) :
    level_is_completable g = (false, g) := by
  unfold level_is_completable
  rw [h]

theorem lic_eq_some (g : Grid) (pp : Pos) (h : find_player g = some pp) :
    level_is_completable g =
      ((((flood g pp floodMask floodTarget flood_record_tiles 0).data &&&
          keyExitBits) == keyExitBits),
       (flood g pp floodMask floodTarget flood_record_tiles 0).grid) := by
  unfold level_is_completable
  rw [h]

/-- `level_is_completable` never changes the level array (the flood it runs
uses `flood_record_tiles`, which only accumulates). -/
theorem lic_snd (g : Grid) : (level_is_completable g).2 = g := by
  cases hfp : find_player g with
  | none => rw [lic_eq_none g hfp, pair_snd]
  | some pp =>
    rw [lic_eq_some g pp hfp, pair_snd, flood_record_tiles_eq]
    exact (flood_pair orA g pp floodMask floodTarget 0).1

/-- The boolean returned by `level_is_completable`, characterised: true iff a
player exists and both the key and the exit bits appear on tiles of the
connected matching component of the first player cell. -/
theorem lic_iff (g : Grid) :
    (level_is_completable g).1 = true ↔
      ∃ pp, find_player g = some pp ∧
        (∃ a, inComp g pp floodMask floodTarget a ∧ (g a).testBit KEY = true) ∧
        (∃ b, inComp g pp floodMask floodTarget b ∧ (g b).testBit EXIT = true) := by
  cases hfp : find_player g with
  | none =>
    rw [lic_eq_none g hfp, pair_fst]
    simp
  | some pp =>
    rw [lic_eq_some g pp hfp, pair_fst, flood_record_tiles_eq]
    have hdata : (flood g pp floodMask floodTarget (mkV orA) 0).data
        = replayA orA g 0 (floodVisits g pp floodMask floodTarget) :=
      (flood_pair orA g pp floodMask floodTarget 0).2.2.2.2.2.2
    rw [hdata, land_keyExit]
    rw [replay_or_testBit, replay_or_testBit]
    constructor
    · intro ⟨hk, he⟩
      obtain ⟨a, ha, hab⟩ := hk
      obtain ⟨b, hb, hbb⟩ := he
      exact ⟨pp, rfl,
        ⟨a, (floodVisits_mem g pp floodMask floodTarget a).mp ha, hab⟩,
        ⟨b, (floodVisits_mem g pp floodMask floodTarget b).mp hb, hbb⟩⟩
    · rintro ⟨pp2, hpp2, hK, hE⟩
      injection hpp2 with h
      subst h
      obtain ⟨a, ha, hab⟩ := hK
      obtain ⟨b, hb, hbb⟩ := hE
      constructor
      · exact ⟨a, (floodVisits_mem g pp floodMask floodTarget a).mpr ha, hab⟩
      · exact ⟨b, (floodVisits_mem g pp floodMask floodTarget b).mpr hb, hbb⟩

/-! ### Invariance of completability under rewriting a non-matching,
non-player cell -/

theorem hasBit_eq_testBit (t n : Nat) : hasBit t n = t.testBit n := by
  cases hb : t.testBit n
  · cases ha : hasBit t n
    · rfl
    · exact absurd ((hasBit_iff t n).mp ha) (by rw [hb]; exact Bool.false_ne_true)
  · exact (hasBit_iff t n).mpr hb

theorem matchFn_update_eq (g : Grid) (p : Pos) (t2 : Nat) (mask target : Nat)
    (hm1 : matchFn g mask target p = false)
    (hm2 : matchFn (Function.update g p t2) mask target p = false) :
    matchFn (Function.update g p t2) mask target = matchFn g mask target := by
  funext q
  by_cases hq : q = p
  · subst hq
    rw [hm1, hm2]
  · unfold matchFn
    rw [Function.update_noteq hq]

theorem inComp_congr (g1 g2 : Grid) (start : Pos) (mask target : Nat)
    (hM : matchFn g1 mask target = matchFn g2 mask target) (p : Pos) :
    inComp g1 start mask target p ↔ inComp g2 start mask target p := by
  unfold inComp
  rw [hM]

theorem find_player_congr (g1 g2 : Grid)
    (h : ∀ p, hasBit (g1 p) PLAYER = hasBit (g2 p) PLAYER) :
    find_player g1 = find_player g2 := by
  unfold find_player
  congr 1
  funext p
  exact h p

theorem exComp_update (g : Grid) (p : Pos) (t2 : Nat) (pp : Pos) (k : Nat)
    (hm1 : matchFn g floodMask floodTarget p = false) :
    (∃ a, inComp g pp floodMask floodTarget a ∧
      ((Function.update g p t2) a).testBit k = true) ↔
    (∃ a, inComp g pp floodMask floodTarget a ∧ (g a).testBit k = true) := by
  have hne : ∀ a, inComp g pp floodMask floodTarget a → a ≠ p := by
    intro a ha he
    obtain ⟨hMa, _⟩ := ha
    rw [he, hm1] at hMa
    exact Bool.false_ne_true hMa
  constructor <;> rintro ⟨a, ha, hb⟩ <;> refine ⟨a, ha, ?_⟩
  · rwa [Function.update_noteq (hne a ha)] at hb
  · rwa [Function.update_noteq (hne a ha)]

/-- Rewriting the tile of a cell that matches neither before nor after the
rewrite and carries no player bit on either side does not change the result
of `level_is_completable`. -/
theorem lic_update_nonmatching (g : Grid) (p : Pos) (t2 : Nat)
    (hp1 : hasBit (g p) PLAYER = false) (hp2 : hasBit t2 PLAYER = false)
    (hm1 : matchFn g floodMask floodTarget p = false)
    (hm2 : matchFn (Function.update g p t2) floodMask floodTarget p = false) :
    (level_is_completable (Function.update g p t2)).1 =
      (level_is_completable g).1 := by
  have hM := matchFn_update_eq g p t2 floodMask floodTarget hm1 hm2
  have hfp : find_player (Function.update g p t2) = find_player g := by
    apply find_player_congr
    intro q
    by_cases hq : q = p
    · subst hq
      rw [Function.update_same, hp1, hp2]
    · rw [Function.update_noteq hq]
  have hiff : (level_is_completable (Function.update g p t2)).1 = true ↔
      (level_is_completable g).1 = true := by
    rw [lic_iff, lic_iff, hfp]
    constructor <;> rintro ⟨pp, h1, h2, h3⟩ <;> refine ⟨pp, h1, ?_, ?_⟩
    · exact (exComp_update g p t2 pp KEY hm1).mp
        (⟨h2.choose, (inComp_congr _ _ pp floodMask floodTarget hM _).mp
          h2.choose_spec.1, h2.choose_spec.2⟩)
    · exact (exComp_update g p t2 pp EXIT hm1).mp
        (⟨h3.choose, (inComp_congr _ _ pp floodMask floodTarget hM _).mp
          h3.choose_spec.1, h3.choose_spec.2⟩)
    · exact ⟨h2.choose, (inComp_congr _ _ pp floodMask floodTarget hM _).mpr
          h2.choose_spec.1,
        by
          rw [Function.update_noteq]
          · exact h2.choose_spec.2
          · intro he
            have := h2.choose_spec.1
            obtain ⟨hMa, _⟩ := this
            rw [he, hm1] at hMa
            exact Bool.false_ne_true hMa⟩
    · exact ⟨h3.choose, (inComp_congr _ _ pp floodMask floodTarget hM _).mpr
          h3.choose_spec.1,
        by
          rw [Function.update_noteq]
          · exact h3.choose_spec.2
          · intro he
            have := h3.choose_spec.1
            obtain ⟨hMa, _⟩ := this
            rw [he, hm1] at hMa
            exact Bool.false_ne_true hMa⟩
  cases hb : (level_is_completable g).1
  · cases hc : (level_is_completable (Function.update g p t2)).1
    · rfl
    · have := hiff.mp hc
      rw [hb] at this
      exact absurd this Bool.false_ne_true
  · exact hiff.mpr hb

/-! ### Tile bit algebra -/

theorem testBit_lor_bit_self (t n : Nat) : (t ||| BIT n).testBit n = true := by
  rw [BIT_eq_pow, Nat.testBit_lor, Nat.testBit_two_pow_self, Bool.or_true]

theorem testBit_lor_bit_ne (t : Nat) {m n : Nat} (h : m ≠ n) :
    (t ||| BIT m).testBit n = t.testBit n := by
  rw [BIT_eq_pow, Nat.testBit_lor, Nat.testBit_two_pow_of_ne h, Bool.or_false]

/-- `t | BIT n` is `t` when the bit is already set. -/
theorem lor_bit_of_testBit (t n : Nat) (h : t.testBit n = true) :
    t ||| BIT n = t := by
  rw [BIT_eq_pow]
  apply Nat.eq_of_testBit_eq
  intro i
  rw [Nat.testBit_lor, Nat.testBit_two_pow]
  by_cases hi : n = i
  · subst hi
    rw [h]
    rfl
  · rw [decide_eq_false hi, Bool.or_false]

/-- XOR removes an ORed-in bit exactly when the bit was clear before:
`(t | BIT n) ^ BIT n = t`. -/
theorem lor_xor_bit (t n : Nat) (h : t.testBit n = false) :
    (t ||| BIT n) ^^^ BIT n = t := by
  rw [BIT_eq_pow]
  apply Nat.eq_of_testBit_eq
  intro i
  rw [Nat.testBit_xor, Nat.testBit_lor, Nat.testBit_two_pow]
  by_cases hi : n = i
  · subst hi
    rw [h]
    simp
  · rw [decide_eq_false hi, Bool.or_false, Bool.xor_false]

/-- A tile with the wall bit set never passes the Floor-masked match test. -/
theorem matchFn_wall_false (g : Grid) (p : Pos) (h : (g p).testBit WALL = true) :
    matchFn g floodMask floodTarget p = false := by
  unfold matchFn
  rw [beq_eq_false_iff_ne]
  intro he
  have hbit := congrArg (fun z => z.testBit 2) he
  simp only [Nat.testBit_land] at hbit
  have hfm : floodMask.testBit 2 = true := by decide
  have hft : floodTarget.testBit 2 = false := by decide
  have h2 : (g p).testBit 2 = true := h
  rw [hfm, hft, h2] at hbit
  exact absurd hbit (by decide)

/-- C4.  One attempt of `reverse_verified_scatter_generator` never decreases
completability: whatever branch is taken (skip on player, rejected with the
wall XORed back out, or accepted with the tile collapsed to pure Wall), a
level that was completable before is completable after.  In particular the
acceptance test is run on the grid with the wall ORed in, and collapsing the
accepted tile to pure `Wall` cannot break completability because a walled
tile is never traversable and its other bits are unreachable. -/
theorem rvsg_attempt_preserves (g : Grid) (p : Pos)
    (h : (level_is_completable g).1 = true) :
    (level_is_completable (rvsg_attempt g p)).1 = true := by
  unfold rvsg_attempt
  by_cases hpl : hasBit (g p) PLAYER = true
  · rw [if_pos hpl]
    exact h
  · have hpl2 : hasBit (g p) PLAYER = false := by
      cases hb : hasBit (g p) PLAYER
      · rfl
      · exact absurd hb hpl
    rw [if_neg hpl]
    by_cases hacc : (level_is_completable
        (Function.update g p ((g p) ||| BIT WALL))).1 = true
    · rw [if_neg (by rw [hacc]; decide : ¬((!(level_is_completable
        (Function.update g p ((g p) ||| BIT WALL))).1) = true))]
      have hp1 : hasBit (Function.update g p ((g p) ||| BIT WALL) p) PLAYER
          = false := by
        rw [Function.update_same, hasBit_eq_testBit,
          testBit_lor_bit_ne _ (by decide : WALL ≠ PLAYER),
          ← hasBit_eq_testBit, hpl2]
      have hm1 : matchFn (Function.update g p ((g p) ||| BIT WALL))
          floodMask floodTarget p = false := by
        apply matchFn_wall_false
        rw [Function.update_same]
        exact testBit_lor_bit_self (g p) WALL
      have hm2 : matchFn (Function.update
          (Function.update g p ((g p) ||| BIT WALL)) p (BIT WALL))
          floodMask floodTarget p = false := by
        apply matchFn_wall_false
        rw [Function.update_same]
        decide
      rw [lic_update_nonmatching (Function.update g p ((g p) ||| BIT WALL)) p
        (BIT WALL) hp1 (by decide) hm1 hm2]
      exact hacc
    · have hrej : (level_is_completable
          (Function.update g p ((g p) ||| BIT WALL))).1 = false := by
        cases hb : (level_is_completable
            (Function.update g p ((g p) ||| BIT WALL))).1
        · rfl
        · exact absurd hb hacc
      rw [if_pos (by rw [hrej]; decide : (!(level_is_completable
        (Function.update g p ((g p) ||| BIT WALL))).1) = true)]
      by_cases hw : (g p).testBit WALL = true
      · exfalso
        apply hacc
        rw [lor_bit_of_testBit (g p) WALL hw, Function.update_eq_self]
        exact h
      · have hw2 : (g p).testBit WALL = false := by
          cases hb : (g p).testBit WALL
          · rfl
          · exact absurd hb hw
        rw [Function.update_same, lor_xor_bit (g p) WALL hw2,
          Function.update_idem, Function.update_eq_self]
        exact h

/-! ### The binary level format -/

def posDefault : Pos := ((⟨0, by omega⟩ : Fin 22), (⟨0, by omega⟩ : Fin 22))

theorem flatMap_pair_length (f h : Pos → Nat) :
    ∀ l : List Pos, (l.flatMap (fun p => [f p, h p])).length = 2 * l.length
  | [] => rfl
  | p :: l => by
    rw [List.flatMap_cons, List.length_append, flatMap_pair_length f h l,
      List.length_cons]
    simp
    omega

theorem levelBytes_length (g : Grid) : (levelBytes g).length = 968 := by
  unfold levelBytes
  rw [flatMap_pair_length]
  rw [show RM.length = 484 from by decide]

theorem flatMap_pair_getD (f h : Pos → Nat) :
    ∀ (l : List Pos) (i : Nat), i < l.length →
    (l.flatMap (fun p => [f p, h p])).getD (2 * i) 0 = f (l.getD i posDefault) ∧
    (l.flatMap (fun p => [f p, h p])).getD (2 * i + 1) 0 = h (l.getD i posDefault)
  | [], i, hi => absurd hi (by simp)
  | p :: l, 0, _ => by
    constructor <;> rfl
  | p :: l, i + 1, hi => by
    have e2 : 2 * (i + 1) = (2 * i + 1) + 1 := by omega
    rw [List.flatMap_cons, e2]
    refine ⟨?_, ?_⟩
    · show (f p :: h p :: l.flatMap (fun q => [f q, h q])).getD (2 * i + 1 + 1) 0
          = f ((p :: l).getD (i + 1) posDefault)
      rw [List.getD_cons_succ, List.getD_cons_succ, List.getD_cons_succ]
      exact (flatMap_pair_getD f h l i (by simpa using hi)).1
    · show (f p :: h p :: l.flatMap (fun q => [f q, h q])).getD (2 * i + 1 + 1 + 1) 0
          = h ((p :: l).getD (i + 1) posDefault)
      rw [List.getD_cons_succ, List.getD_cons_succ, List.getD_cons_succ]
      exact (flatMap_pair_getD f h l i (by simpa using hi)).2

theorem RM_getD (p : Pos) : RM.getD (rmIndex p) posDefault = p := by
  revert p
  decide

theorem rmIndex_lt (p : Pos) : rmIndex p < 484 := by
  have h1 := p.1.isLt
  have h2 := p.2.isLt
  show p.1.val + 22 * p.2.val < 484
  omega

/-- C8.  Round trip: writing a level in the binary format and reading it back
reproduces every tile exactly, for any destination accepting all 484 items
and any 16-bit tile values. -/
theorem level_roundtrip (g : Grid) (hg : ∀ p, g p < 65536) (cap : Nat)
    (hcap : 22 * 22 ≤ cap) (g2 : Grid) :
    (load_level (write_level cap g).1 g2).2 = g := by
  have hbytes : (write_level cap g).1 = levelBytes g := by
    show (levelBytes g).take (2 * min (22 * 22) cap) = levelBytes g
    rw [Nat.min_eq_left hcap]
    apply List.take_of_length_le
    rw [levelBytes_length]
  funext p
  show (load_level (write_level cap g).1 g2).2 p = g p
  rw [hbytes]
  show (if rmIndex p < min (22 * 22) ((levelBytes g).length / 2) then
      (levelBytes g).getD (2 * rmIndex p) 0 +
        256 * (levelBytes g).getD (2 * rmIndex p + 1) 0
    else g2 p) = g p
  rw [levelBytes_length]
  rw [show min (22 * 22) (968 / 2) = 484 from by norm_num]
  rw [if_pos (rmIndex_lt p)]
  obtain ⟨h1, h2⟩ := flatMap_pair_getD (fun q => g q % 256)
    (fun q => g q / 256 % 256) RM (rmIndex p)
    (by rw [show RM.length = 484 from by decide]; exact rmIndex_lt p)
  rw [show levelBytes g =
      RM.flatMap (fun q => [g q % 256, g q / 256 % 256]) from rfl]
  rw [h1, h2, RM_getD p]
  have := hg p
  omega

/-- C9 (amended).  `load_level` reports success iff the file holds at least
one complete 16-bit value; `write_level` reports success iff the destination
accepts at least one item.  A partial transfer of 1..483 values is therefore
reported as success, not failure. -/
theorem load_write_success_iff (file : List Nat) (g : Grid) (cap : Nat)
    (g2 : Grid) :
    ((load_level file g).1 = true ↔ 2 ≤ file.length) ∧
    ((write_level cap g2).2 = true ↔ 1 ≤ cap) := by
  constructor
  · show (min (22 * 22) (file.length / 2) != 0) = true ↔ _
    rw [bne_iff_ne, ne_eq]
    omega
  · show (min (22 * 22) cap != 0) = true ↔ _
    rw [bne_iff_ne, ne_eq]
    omega

/-! ### Bounds of `random_int_range` -/

theorem random_u64_le (s : Nat × Nat) : (random_u64 s).1 ≤ 2 ^ 64 - 1 := by
  show (s.1 + s.2) % 2 ^ 64 ≤ 2 ^ 64 - 1
  have := Nat.mod_lt (s.1 + s.2) (show 0 < 2 ^ 64 by norm_num)
  omega

theorem random_float_bounds (s : Nat × Nat) :
    0 ≤ (random_float s).1 ∧ (random_float s).1 ≤ 1 := by
  show 0 ≤ ((random_u64 s).1 : ℚ) / ((2 ^ 64 - 1 : Nat) : ℚ) ∧
    ((random_u64 s).1 : ℚ) / ((2 ^ 64 - 1 : Nat) : ℚ) ≤ 1
  constructor
  · apply div_nonneg
    · exact Nat.cast_nonneg _
    · exact Nat.cast_nonneg _
  · rw [div_le_one (by norm_num)]
    exact_mod_cast random_u64_le s

/-- C7 (amended).  `random_int_range(low, high)` always returns a value in
`[low, high + 1]`: the upper end can be exceeded by exactly one when the
float draw is exactly 1 (which happens for the maximal 64-bit draw, whose
conversion to `float` rounds to the same value as `UINT64_MAX`), so the
result is *not* always within `[low, high]`.  Float arithmetic is idealised
as exact rational arithmetic here; real float rounding only enlarges the set
of draws mapping to the extremes and cannot push the result below `low` or
above `high + 1` for the in-range values used by this program. -/
theorem random_int_range_bounds (s : Nat × Nat) (low high : Int)
    (h : low ≤ high) :
    low ≤ (random_int_range s low high).1 ∧
      (random_int_range s low high).1 ≤ high + 1 := by
  obtain ⟨hf0, hf1⟩ := random_float_bounds s
  show low ≤ c_trunc ((random_float s).1 *
      ((((high - low).natAbs + 1 : Nat)) : ℚ) + (low : ℚ)) ∧
    c_trunc ((random_float s).1 *
      ((((high - low).natAbs + 1 : Nat)) : ℚ) + (low : ℚ)) ≤ high + 1
  have hdq : ((((high - low).natAbs + 1 : Nat)) : ℚ) = (high : ℚ) - low + 1 := by
    have hna : ((high - low).natAbs : Int) = high - low :=
      Int.natAbs_of_nonneg (by omega)
    have h2 : (((high - low).natAbs : Nat) : ℚ) =
        (((high - low).natAbs : Int) : ℚ) := (Int.cast_natCast _).symm
    rw [Nat.cast_add_one, h2, hna, Int.cast_sub]
  rw [hdq]
  have hD : (0 : ℚ) ≤ (high : ℚ) - low + 1 := by
    have hc : (low : ℚ) ≤ (high : ℚ) := by exact_mod_cast h
    linarith
  have hq1 : (low : ℚ) ≤ (random_float s).1 * ((high : ℚ) - low + 1) + low := by
    have := mul_nonneg hf0 hD
    linarith
  have hq2 : (random_float s).1 * ((high : ℚ) - low + 1) + low ≤ (high : ℚ) + 1 := by
    have := mul_le_of_le_one_left hD hf1
    linarith
  unfold c_trunc
  split_ifs with hneg
  · constructor
    · exact_mod_cast le_trans hq1 (Int.le_ceil _)
    · apply Int.ceil_le.mpr
      rw [Int.cast_add, Int.cast_one]
      exact hq2
  · constructor
    · exact Int.le_floor.mpr hq1
    · have hfl := Int.floor_le ((random_float s).1 * ((high : ℚ) - low + 1) + low)
      have h3 : ((⌊(random_float s).1 * ((high : ℚ) - low + 1) + low⌋ : Int) : ℚ) ≤
          (high : ℚ) + 1 := le_trans hfl hq2
      exact_mod_cast h3

/-! ### Rejected wall attempts -/

/-- C5 (amended).  In both randomized subtractive refiners, a rejected
tentative wall insertion restores the level exactly — provided the chosen
cell's Wall bit was clear before the attempt.  (When the cell already holds
a wall, `|=` is a no-op but the rejection path's `^=` then *removes* the
pre-existing wall, changing the level; see the counterexample.) -/
theorem subtractive_reject_restores (g : Grid) (p : Pos) (junk actual : Int)
    (hw : (g p).testBit WALL = false) :
    (rvsg_rejected g p → rvsg_attempt g p = g) ∧
    (repsg_rejected junk actual g p → repsg_attempt junk actual g p = g) := by
  constructor
  · rintro ⟨hpl, hrej⟩
    unfold rvsg_attempt
    rw [if_neg (by rw [hpl]; exact Bool.false_ne_true)]
    rw [if_pos (by rw [hrej]; decide : (!(level_is_completable
      (Function.update g p ((g p) ||| BIT WALL))).1) = true)]
    rw [Function.update_same, lor_xor_bit (g p) WALL hw,
      Function.update_idem, Function.update_eq_self]
  · rintro ⟨hpl, pp, hfp, hne⟩
    unfold repsg_attempt
    rw [if_neg (by rw [hpl]; exact Bool.false_ne_true)]
    split
    · rename_i heq
      rw [hfp] at heq
      exact absurd heq (by simp)
    · rename_i pp2 heq
      rw [hfp] at heq
      injection heq with he
      subst he
      rw [if_pos (by
        rw [beq_eq_false_iff_ne.mpr hne]
        decide : (!(actual == (flood (Function.update g p ((g p) ||| BIT WALL))
          pp floodMask floodTarget count_entities junk).data)) = true)]
      rw [Function.update_same, lor_xor_bit (g p) WALL hw,
        Function.update_idem, Function.update_eq_self]

/-! ### Claim C1: the flood-fill contract -/

theorem floodVisits_def (g0 : Grid) (start : Pos) (mask target : Nat) :
    floodVisits g0 start mask target =
      (flood g0 start mask target (mkV recA) []).data := rfl

theorem floodVisits_count_one (g0 : Grid) (start : Pos) (mask target : Nat)
    (p : Pos) (hp : inComp g0 start mask target p) :
    (floodVisits g0 start mask target).count p = 1 := by
  have d := floodVisits_nodup g0 start mask target
  have h := (floodVisits_mem g0 start mask target p).mpr hp
  generalize floodVisits g0 start mask target = l at d h ⊢
  have hinst : (instBEqProd : BEq Pos) = instBEqOfDecidableEq :=
    @lawful_beq_subsingleton Pos instBEqProd instBEqOfDecidableEq
      inferInstance (@instLawfulBEq Pos instDecidableEqProd)
  rw [hinst]
  exact List.count_eq_one_of_mem d h

/-- C1.  For every grid, start, mask, target and every visitor that never
signals stop and never modifies the tile it is shown: the cells `flood`
visits (recorded in `floodVisits`) enumerate, without duplicates, exactly the
connected matching component containing the start (so each component tile is
visited exactly once); the returned step count equals that component's size
(0 when the start cell itself does not match); the visitor's accumulator is
folded once over that enumeration; and the grid is left unchanged. -/
theorem flood_visits_component {σ : Type} (g0 : Grid) (start : Pos)
    (mask target : Nat) (v : Visitor σ) (d0 : σ)
    (hnm : ∀ t p s, (v t p s).1 = t)
    (hns : ∀ t p s, (v t p s).2.2 = false) :
    (floodVisits g0 start mask target).Nodup ∧
    (∀ p, p ∈ floodVisits g0 start mask target ↔ inComp g0 start mask target p) ∧
    (∀ p, inComp g0 start mask target p →
      (floodVisits g0 start mask target).count p = 1) ∧
    (flood g0 start mask target v d0).steps =
      (floodVisits g0 start mask target).length ∧
    (flood g0 start mask target v d0).steps =
      (setOf (inComp g0 start mask target)).ncard ∧
    (matchFn g0 mask target start = false →
      (flood g0 start mask target v d0).steps = 0) ∧
    (flood g0 start mask target v d0).data =
      (floodVisits g0 start mask target).foldr
        (fun p d => (v (g0 p) p d).2.1) d0 ∧
    (flood g0 start mask target v d0).grid = g0 := by
  have hveq : v = mkV (fun s t p => (v t p s).2.1) := by
    funext t p s
    have h1 := hnm t p s
    have h3 := hns t p s
    have he : v t p s = ((v t p s).1, (v t p s).2.1, (v t p s).2.2) := rfl
    rw [he, h1, h3]
    rfl
  rw [hveq]
  obtain ⟨hg1, _, _, hs, _, _, hd⟩ :=
    flood_pair (fun s t p => (v t p s).2.1) g0 start mask target d0
  have hempty : matchFn g0 mask target start = false →
      floodVisits g0 start mask target = [] := by
    intro hM0
    rw [List.eq_nil_iff_forall_not_mem]
    intro q hq
    obtain ⟨hMq, hchain⟩ := (floodVisits_mem g0 start mask target q).mp hq
    rcases Relation.ReflTransGen.cases_head hchain with he | ⟨c, hstep, _⟩
    · subst he
      rw [hM0] at hMq
      exact Bool.false_ne_true hMq
    · have h1 : matchFn g0 mask target start = true := hstep.1
      rw [hM0] at h1
      exact Bool.false_ne_true h1
  refine ⟨floodVisits_nodup g0 start mask target,
    fun p => floodVisits_mem g0 start mask target p,
    fun p hp => floodVisits_count_one g0 start mask target p hp,
    ?_, ?_, ?_, ?_, hg1⟩
  · rw [hs, flood_rec_steps]
  · rw [hs, flood_rec_steps_ncard]
  · intro hM0
    rw [hs, flood_rec_steps, hempty hM0]
    rfl
  · rw [← floodVisits_def g0 start mask target] at hd
    rw [hd]
    rfl

/-! ### Claim C2: characterisation of `level_is_completable` -/

/-- C2.  `level_is_completable` returns true iff a player tile exists and both
the Key and the Exit bits appear on tiles of the connected Floor-matching
component of the first player cell (the component the flood accumulates the
bitwise OR over); in particular it returns false when no player exists, and
false on any grid with no Key bit anywhere even if the Exit is reachable. -/
theorem level_is_completable_spec (g : Grid) :
    ((level_is_completable g).1 = true ↔
      ∃ pp, find_player g = some pp ∧
        (∃ a, inComp g pp floodMask floodTarget a ∧ (g a).testBit KEY = true) ∧
        (∃ b, inComp g pp floodMask floodTarget b ∧ (g b).testBit EXIT = true)) ∧
    (find_player g = none → (level_is_completable g).1 = false) ∧
    ((∀ p, (g p).testBit KEY = false) → (level_is_completable g).1 = false) := by
  refine ⟨lic_iff g, ?_, ?_⟩
  · intro h
    rw [lic_eq_none g h, pair_fst]
  · intro hk
    cases hb : (level_is_completable g).1
    · rfl
    · obtain ⟨pp, hpp, ⟨a, ha, hab⟩, hE⟩ := (lic_iff g).mp hb
      rw [hk a] at hab
      exact absurd hab Bool.false_ne_true

/-! ### Claim C10: `level_is_completable` does not write the level -/

/-- C10.  `level_is_completable` leaves every tile of the level unchanged:
its flood runs `flood_record_tiles`, which only accumulates bits into the
`entities_seen` accumulator and never writes through the tile pointer. -/
theorem lic_preserves_grid (g : Grid) (p : Pos) :
    (level_is_completable g).2 p = g p := by
  rw [lic_snd]

/-! ### Concrete instances -/

/-- An interior cell. -/
def pW : Pos := ((⟨3, by omega⟩ : Fin 22), (⟨3, by omega⟩ : Fin 22))

/-- A grid whose only nonzero tile is a pure wall at `pW`. -/
def gWall : Grid := fun q => if q = pW then BIT WALL else 0

/-- C5 counterexample.  On a level that already holds a wall at the chosen
cell, a rejected tentative insertion does not restore the level: `|=` is a
no-op on the already-set bit, and the rejection path's `^=` then strips the
pre-existing wall. -/
theorem rejected_attempt_changes_walled_cell :
    rvsg_rejected gWall pW ∧ rvsg_attempt gWall pW pW ≠ gWall pW :=
  ⟨⟨by decide, by decide⟩, by decide⟩

/-- The all-zero grid. -/
def gZero : Grid := fun _ => 0

/-- C5 witness: at a cell whose Wall bit is clear, both rejected attempts
restore the level exactly. -/
theorem subtractive_reject_restores_witness :
    (gZero pW).testBit WALL = false ∧
    ((rvsg_rejected gZero pW → rvsg_attempt gZero pW = gZero) ∧
     (repsg_rejected 0 0 gZero pW → repsg_attempt 0 0 gZero pW = gZero)) :=
  ⟨by decide, subtractive_reject_restores gZero pW 0 0 (by decide)⟩

/-- C7 counterexample.  With `low = high = 0` (so `low ≤ high`) and the
maximal 64-bit draw, the float draw is exactly 1 and the result is `1`,
outside the requested inclusive range `[0, 0]`. -/
theorem int_range_exceeds_high :
    ((0 : Int) ≤ 0) ∧ ¬((random_int_range (2 ^ 64 - 1, 0) 0 0).1 ≤ 0) := by
  have h1 : (random_int_range (2 ^ 64 - 1, 0) 0 0).1 = 1 := by
    show c_trunc ((random_float (2 ^ 64 - 1, 0)).1 *
        (((((0 : Int) - 0).natAbs + 1 : Nat)) : ℚ) + ((0 : Int) : ℚ)) = 1
    have hf : (random_float (2 ^ 64 - 1, 0)).1 = 1 := by
      show (((random_u64 (2 ^ 64 - 1, 0)).1 : ℚ)) / ((2 ^ 64 - 1 : Nat) : ℚ) = 1
      have hu : (random_u64 (2 ^ 64 - 1, 0)).1 = 2 ^ 64 - 1 := by
        show (2 ^ 64 - 1 + 0) % 2 ^ 64 = 2 ^ 64 - 1
        norm_num
      rw [hu]
      apply div_self
      norm_num
    rw [hf]
    have harg : (1 : ℚ) * (((((0 : Int) - 0).natAbs + 1 : Nat)) : ℚ) +
        ((0 : Int) : ℚ) = 1 := by
      norm_num
    rw [harg]
    unfold c_trunc
    rw [if_neg (by norm_num)]
    exact Int.floor_one
  rw [h1]
  exact ⟨le_refl 0, by omega⟩

/-- C7 witness: a concrete state with `low ≤ high`, and the proved bounds at
that input. -/
theorem random_int_range_bounds_witness :
    ((0 : Int) ≤ 5) ∧
    ((0 : Int) ≤ (random_int_range (1, 2) 0 5).1 ∧
      (random_int_range (1, 2) 0 5).1 ≤ 5 + 1) :=
  ⟨by decide, random_int_range_bounds (1, 2) 0 5 (by decide)⟩

/-- C9 counterexample.  A file of two bytes holds one complete 16-bit item of
the 484 expected, yet `load_level` reports success. -/
theorem partial_load_reports_success :
    (load_level [7, 0] gZero).1 = true ∧ ¬(484 ≤ [7, 0].length / 2) :=
  ⟨by decide, by decide⟩

/-- A grid of distinct 16-bit tile values. -/
def gw8 : Grid := fun p => rmIndex p

/-- C8 witness: the round trip reproduces a concrete grid through a
destination accepting all 484 items. -/
theorem level_roundtrip_witness :
    (∀ p, gw8 p < 65536) ∧ 22 * 22 ≤ 484 ∧
      (load_level (write_level 484 gw8).1 gZero).2 = gw8 :=
  ⟨by decide, by decide, level_roundtrip gw8 (by decide) 484 (by decide) gZero⟩

/-- The player cell of `gC`. -/
def cC : Pos := ((⟨1, by omega⟩ : Fin 22), (⟨1, by omega⟩ : Fin 22))

/-- A grid whose only nonzero tile, at `cC`, holds Floor, Exit, Key and
Player (`2 + 16 + 128 + 512`). -/
def gC : Grid := fun q => if q = cC then 658 else 0

/-- C4 witness: a concrete completable level, and the proved preservation of
completability across one attempted wall insertion at a concrete cell. -/
theorem rvsg_attempt_preserves_witness :
    (level_is_completable gC).1 = true ∧
      (level_is_completable (rvsg_attempt gC cC)).1 = true := by
  have hfp : find_player gC = some cC := by decide
  have hM : matchFn gC floodMask floodTarget cC = true := by decide
  have hin : inComp gC cC floodMask floodTarget cC :=
    ⟨hM, Relation.ReflTransGen.refl⟩
  have hC : (level_is_completable gC).1 = true :=
    (lic_iff gC).mpr ⟨cC, hfp, ⟨cC, hin, by decide⟩, ⟨cC, hin, by decide⟩⟩
  exact ⟨hC, rvsg_attempt_preserves gC cC hC⟩

/-- A visitor that never writes the tile, never stops and keeps its
accumulator. -/
def vTriv : Visitor Nat := fun t _ s => (t, s, false)

/-- C1 witness: the flood contract at a concrete grid, start, mask, target
and visitor. -/
theorem flood_visits_component_witness :
    (floodVisits gZero posDefault 0 0).Nodup ∧
    (∀ p, p ∈ floodVisits gZero posDefault 0 0 ↔
      inComp gZero posDefault 0 0 p) ∧
    (∀ p, inComp gZero posDefault 0 0 p →
      (floodVisits gZero posDefault 0 0).count p = 1) ∧
    (flood gZero posDefault 0 0 vTriv 0).steps =
      (floodVisits gZero posDefault 0 0).length ∧
    (flood gZero posDefault 0 0 vTriv 0).steps =
      (setOf (inComp gZero posDefault 0 0)).ncard ∧
    (matchFn gZero 0 0 posDefault = false →
      (flood gZero posDefault 0 0 vTriv 0).steps = 0) ∧
    (flood gZero posDefault 0 0 vTriv 0).data =
      (floodVisits gZero posDefault 0 0).foldr
        (fun p d => (vTriv (gZero p) p d).2.1) 0 ∧
    (flood gZero posDefault 0 0 vTriv 0).grid = gZero :=
  flood_visits_component gZero posDefault 0 0 vTriv 0
    (fun t p s => rfl) (fun t p s => rfl)
